import Mathlib

/-!
# Verification of the `bird_tool_utils` core against its specification

Shallow embedding of the two source modules:

* `src/external_command_checker.rs` — presence checking of external
  executables (`check_for_external_command_presence`) and version probing
  (`default_version_check`).
* `src/clap_utils.rs` — resolution of a genome-input specification into a
  list of FASTA file paths (`parse_list_of_genome_fasta_files`).

Subprocess execution and the filesystem are modelled as explicit inputs:
a probe run is a captured `ProcessOutput` (exit status, stdout, stderr),
and the filesystem is a pair of functions giving a directory's entries
and a list-file's lines.  Rust `Result::Err(String)` return values are
modelled as `RunError.err`; aborts through `.expect(..)` (a panic, which
never returns a value to the caller) are modelled as `RunError.abort`
carrying the panic message.

String manipulation is modelled on `List Char` (`String.data`), with each
helper mirroring the Rust `str` primitive it stands for.
-/

deriving instance DecidableEq for Except

namespace BirdToolUtils

/-- Outcome of one finished subprocess run, as captured by the source
(`Command::new("bash").arg("-c")…` with piped stdout/stderr, then `wait`).
The model assumes the shell itself could be spawned (the source aborts
otherwise). -/
structure ProcessOutput where
  exit_success : Bool
  stdout : String
  stderr : String
deriving DecidableEq, Repr

/-- How a source function can fail: `err` is a returned `Err(String)`,
`abort` is a panic raised by `.expect(msg)` — the process dies with `msg`
and no value is returned. -/
inductive RunError where
  | err : String → RunError
  | abort : String → RunError
deriving DecidableEq, Repr

/-! ## Character-list models of the Rust `str` primitives used -/

/-- The characters Rust's `str::trim` removes at either end (the ASCII
whitespace relevant here; Rust trims full Unicode `White_Space`, which
agrees with this on every string the claims involve). -/
def isRustWhitespace (c : Char) : Bool :=
  c == ' ' || c == '\t' || c == '\n' || c == '\r'

/-- Model of `str::trim`: drop leading and trailing whitespace. -/
def trimChars (l : List Char) : List Char :=
  ((l.dropWhile isRustWhitespace).reverse.dropWhile isRustWhitespace).reverse

/-- Model of `str::trim` lifted back to `String` (used where the source stores the
trimmed text back into a `String`). -/
def rustTrim (s : String) : String :=
  ⟨trimChars s.data⟩

/-- Model of `str::split(sep)` for a one-character separator: the list of
(possibly empty) segments between occurrences of `sep`.  As in Rust,
splitting the empty string yields `[ [] ]`. -/
def splitOnChar (sep : Char) : List Char → List (List Char)
  | [] => [[]]
  | c :: cs =>
    if c == sep then
      [] :: splitOnChar sep cs
    else
      match splitOnChar sep cs with
      | [] => [[c]]
      | t :: ts => (c :: t) :: ts

/-- Drop a single trailing carriage return, as `str::lines` does for a
line terminated by `\r\n`. -/
def stripTrailingCR (l : List Char) : List Char :=
  match l.getLast? with
  | some c => if c == '\r' then l.dropLast else l
  | none => l

/-- Model of `str::lines().next()`: `none` on the empty string, otherwise
the text up to the first `'\n'`, with one trailing `'\r'` removed when the
line was actually terminated by a newline. -/
def firstLine? (l : List Char) : Option (List Char) :=
  match l with
  | [] => none
  | _ :: _ =>
    let pre := l.takeWhile (fun c => c != '\n')
    if '\n' ∈ l then some (stripTrailingCR pre) else some pre

/-- Model of `str::rsplit(sep).next()` for a one-character separator: the
segment after the last occurrence of `sep` (the whole string when `sep`
does not occur).  Rust's reverse split scans from the end, which is the
`reverse/takeWhile/reverse` below; it always yields a first element. -/
def rsplitFirst (sep : Char) (l : List Char) : List Char :=
  (l.reverse.takeWhile (fun c => c != sep)).reverse

/-- Model of stripping the leading `v` of the version output:
`if version.starts_with("v") { version[1..] }`. -/
def vStrip : List Char → List Char
  | 'v' :: rest => rest
  | l => l

/-! ## The version ordering primitive

The source compares versions with the external `version_compare` crate
(`Version::from`, `<`).  That crate is not part of `src/`, so the ordering
is modelled from the spec: a version is a dot-separated sequence of
numeric segments optionally followed by non-numeric suffix qualifiers;
numeric segments are compared left to right as numbers with the shorter
sequence padded by zero segments, and the suffixes are compared
lexicographically only when all numeric segments are equal. -/

/-- The numeric value of an all-digit token, `none` if the token is empty
or contains a non-digit character. -/
def tokenToNat? (t : List Char) : Option Nat :=
  match t with
  | [] => none
  | _ :: _ =>
    if t.all (fun c => c.isDigit) then
      some (t.foldl (fun n c => n * 10 + (c.toNat - '0'.toNat)) 0)
    else none

/-- A parsed version: its numeric segments and its non-numeric suffix
(the remaining dot-separated qualifiers, rejoined with dots). -/
structure RVersion where
  segs : List Nat
  suffix : List Char
deriving DecidableEq, Repr

/-- Modelled from the spec: parsing of a version string by the
`version_compare` crate (not under `src/`).  Split on dots; the maximal
leading run of numeric tokens gives the numeric segments and the
remaining tokens form the suffix; a version with no leading numeric
segment does not parse. -/
def parseVersion (s : List Char) : Option RVersion :=
  let toks := splitOnChar '.' s
  let numeric := toks.takeWhile (fun t => (tokenToNat? t).isSome)
  let rest := toks.dropWhile (fun t => (tokenToNat? t).isSome)
  match numeric with
  | [] => none
  | _ => some ⟨numeric.map (fun t => (tokenToNat? t).getD 0), List.intercalate ['.'] rest⟩

/-- Modelled from the spec: strict numeric segment-wise comparison, the
shorter segment list padded with zero segments. -/
def segsLt : List Nat → List Nat → Bool
  | [], bs => bs.any (fun b => 0 < b)
  | _ :: _, [] => false
  | a :: as, b :: bs => if a < b then true else if b < a then false else segsLt as bs

/-- Modelled from the spec: segment-wise equality up to zero padding
(`1.2` equals `1.2.0`). -/
def segsEq : List Nat → List Nat → Bool
  | [], bs => bs.all (fun b => b == 0)
  | a :: as, [] => a == 0 && segsEq as []
  | a :: as, b :: bs => a == b && segsEq as bs

/-- Lexicographic strict order on suffix character lists. -/
def charsLt : List Char → List Char → Bool
  | [], [] => false
  | [], _ :: _ => true
  | _ :: _, [] => false
  | a :: as, b :: bs => if a < b then true else if b < a then false else charsLt as bs

/-- Modelled from the spec: the strict version order — numeric segments
first (zero-padded), suffixes lexicographically only when all numeric
segments are equal. -/
def versionLt (a b : RVersion) : Bool :=
  segsLt a.segs b.segs || (segsEq a.segs b.segs && charsLt a.suffix b.suffix)

/-! ## `external_command_checker.rs` -/

/-- Function `check_for_external_command_presence` from
`src/external_command_checker.rs`: success of the testing command's exit
status alone decides the result; on failure the captured stderr is only
logged (`error!`), and the returned `Err` names the executable and the
testing command. -/
def check_for_external_command_presence (executable_name testing_cmd : String)
    (proc : ProcessOutput) : Except RunError Unit :=
  if proc.exit_success then
    .ok ()
  else
    .error (.err ("Cannot continue without " ++ executable_name ++
      ". Testing for presence with `" ++ testing_cmd ++ "` failed"))

/-- The probe command built by `default_version_check`: the override when
given, else `"<executable_name> --version 2>&1"`. -/
def version_command_of (executable_name : String) (command : Option String) : String :=
  match command with
  | some cmd => cmd
  | none => executable_name ++ " --version 2>&1"

/-- The trimmed, `v`-stripped captured stdout of the version probe
(`version` in the source after lines 87–95). -/
def normalizedStdout (stdout : String) : List Char :=
  vStrip (trimChars stdout.data)

/-- The version token taken from a first line: the source trims the line
and takes `rsplit(' ').next()`, the segment after the last space. -/
def lastSpaceToken (line : List Char) : List Char :=
  rsplitFirst ' ' (trimChars line)

/-- Function `default_version_check` from `src/external_command_checker.rs`, acting
on the captured output of the probe command.  Follows the source order:
exit-status gate first (stderr is only logged, the returned `Err` names
the executable and the probe command); then trim and `v`-strip stdout;
then parse the configured minimum (`.expect` abort on failure); then take
the first line (`.expect` abort naming the executable when stdout was
empty); then the last space-delimited token of the trimmed line
(`rsplit(' ').next()` always yields, so the source's `(error 2)` abort is
unreachable); then parse it (abort on failure) and compare. -/
def default_version_check (executable_name min_version : String)
    (allow_nonzero_exitstatus : Bool) (command : Option String)
    (probe : ProcessOutput) : Except RunError Unit :=
  let version_command := version_command_of executable_name command
  if !allow_nonzero_exitstatus && !probe.exit_success then
    .error (.err ("Cannot continue without " ++ executable_name ++
      ". Finding version of `" ++ version_command ++ "` failed"))
  else
    let version := normalizedStdout probe.stdout
    match parseVersion min_version.data with
    | none => .error (.abort "Programming error: failed to parse code-specified version")
    | some expected_version =>
      match firstLine? version with
      | none => .error (.abort ("Unable to parse version for " ++ executable_name ++ " (error 1)"))
      | some line =>
        let token := lastSpaceToken line
        match parseVersion token with
        | none => .error (.abort ("Unable to parse version number '" ++ String.mk version ++
            "' from executable " ++ executable_name))
        | some found_version =>
          if versionLt found_version expected_version then
            .error (.err ("It appears the available version of " ++ executable_name ++
              " is too old (found version " ++ String.mk token ++
              ", required is " ++ min_version ++ ")"))
          else
            .ok ()

/-! ## `clap_utils.rs` -/

/-- Model of Rust `Path::extension()` on a directory entry's file name:
the part after the last dot, `none` when there is no dot, when the name is
`".."`, or when the only dot is the leading one (`.bashrc` has no
extension; `a.` has extension `""`; `.a.b` has extension `b`). -/
def fileExtension (name : List Char) : Option (List Char) :=
  if name = ['.', '.'] then none
  else
    match splitOnChar '.' name with
    | [] => none
    | [_] => none
    | first :: rest =>
      if first = [] ∧ rest.length = 1 then none
      else some (rest.getLastD [])

/-- The source's `// Remove leading dot if present` step:
`extension.split_at(1).1` on `starts_with(".")`, removing exactly one
leading dot. -/
def stripLeadingDot : List Char → List Char
  | '.' :: rest => rest
  | l => l

/-- The `for path in paths` loop of the directory case: keep the entries
whose extension equals the (dot-stripped) configured extension, skipping
entries with a different extension or no extension (the source only logs
those).  Kept paths are the directory-joined entry paths, in directory
order. -/
def directory_genome_files (dir : String) (ext2 : List Char) : List String → List String
  | [] => []
  | name :: rest =>
    match fileExtension name.data with
    | some e =>
      if e == ext2 then
        (dir ++ "/" ++ name) :: directory_genome_files dir ext2 rest
      else
        directory_genome_files dir ext2 rest
    | none => directory_genome_files dir ext2 rest

/-- The directory case of `parse_list_of_genome_fasta_files` after the
directory was read: filter by extension, then the zero-match check
against `fail_on_no_genomes`. -/
def genome_files_from_directory (dir : String) (entries : List String)
    (extension : String) (fail_on_no_genomes : Bool) : Except RunError (List String) :=
  let ext2 := stripLeadingDot extension.data
  let genome_fasta_files := directory_genome_files dir ext2 entries
  if genome_fasta_files.length = 0 then
    if fail_on_no_genomes then
      .error (.err "Found 0 genomes from the genome-fasta-directory, cannot continue.")
    else
      .ok []
  else
    .ok genome_fasta_files

/-- The `for (index, line) in reader.lines().enumerate()` loop of the
list-file case: a read error on a line is an `.expect` abort whose
message carries the 1-based line number (so nothing read before it is
returned); an ok line is trimmed and pushed. -/
def read_genome_list_lines (file_path : String) :
    Nat → List (Except String String) → Except RunError (List String)
  | _, [] => .ok []
  | index, .error _ :: _ =>
    .error (.abort ("Error when reading genome fasta list file " ++ file_path ++
      " on line " ++ toString (index + 1)))
  | index, .ok line :: rest =>
    (read_genome_list_lines file_path (index + 1) rest).map
      (fun fasta_paths => rustTrim line :: fasta_paths)

/-- The clap matches consumed by `parse_list_of_genome_fasta_files`: an
argument is `some` exactly when `contains_id` is true for it.  The
extension always has a value (clap default `"fna"`), so it is a plain
string. -/
structure ArgMatches where
  genome_fasta_files : Option (List String)
  genome_fasta_directory : Option String
  genome_fasta_extension : String
  genome_fasta_list : Option String
deriving DecidableEq, Repr

/-- The filesystem as the resolver sees it: `read_dir` yields the
directory's entry file names (or fails), and opening a list-file yields
its lines, each either read successfully or failing with an I/O error
(or the open itself fails). -/
structure Filesystem where
  readDir : String → Option (List String)
  readFile : String → Option (List (Except String String))

/-- Function `parse_list_of_genome_fasta_files` from `src/clap_utils.rs`: the
explicit file list is returned verbatim when present; otherwise the
directory case runs when present (an unreadable directory is an
`.expect` abort); otherwise the list-file case (an unopenable file is an
`.expect` abort); otherwise a returned `Err`. -/
def parse_list_of_genome_fasta_files (fs : Filesystem) (m : ArgMatches)
    (fail_on_no_genomes : Bool) : Except RunError (List String) :=
  match m.genome_fasta_files with
  | some files => .ok files
  | none =>
    match m.genome_fasta_directory with
    | some dir =>
      match fs.readDir dir with
      | none => .error (.abort ("Failed to read genome-fasta-directory '" ++ dir ++ "'"))
      | some entries =>
        genome_files_from_directory dir entries m.genome_fasta_extension fail_on_no_genomes
    | none =>
      match m.genome_fasta_list with
      | some file_path =>
        match fs.readFile file_path with
        | none => .error (.abort ("Failed to open genome fasta list file " ++ file_path))
        | some lines => read_genome_list_lines file_path 0 lines
      | none => .error (.err "No genome specification options specified")

/-! ## The version-token extraction, from the source and from the spec

`extract_version_token` is the data flow of `default_version_check`
between capturing stdout and `Version::from` (source lines 87–113).
`claimed_token_extraction` is the extraction exactly as the spec words
it; `spec_token_extraction` is the same wording amended by trimming the
first line before taking its last token.  Both spec-side definitions
take the first line and the last token through forward `split`, where
the source iterates `lines()` and `rsplit(' ')`. -/

/-- Token extraction as the source performs it: trim the whole stdout,
strip one leading `v`, take `lines().next()`, trim that line, take
`rsplit(' ').next()`. -/
def extract_version_token (stdout : String) : Option String :=
  match firstLine? (normalizedStdout stdout) with
  | none => none
  | some line => some ⟨lastSpaceToken line⟩

/-- The first line, in the spec's reading: head of the list of
newline-separated segments (empty input has no first line; a line
terminated by a newline loses one trailing carriage return). -/
def specFirstLine? (l : List Char) : Option (List Char) :=
  match splitOnChar '\n' l with
  | [] => none
  | [x] => if l.isEmpty then none else some x
  | x :: _ :: _ => some (stripTrailingCR x)

/-- Token extraction exactly as the claim words it: trim the whole
stdout, strip one leading `v`, take the first line, and take the last
single-space-delimited token of that line — with no trimming of the
line itself. -/
def claimed_token_extraction (stdout : String) : Option String :=
  let s := vStrip (trimChars stdout.data)
  match specFirstLine? s with
  | none => none
  | some line => some ⟨(splitOnChar ' ' line).getLastD []⟩

/-- Token extraction in the spec's wording, amended: the first line is
trimmed before its last single-space-delimited token is taken. -/
def spec_token_extraction (stdout : String) : Option String :=
  let s := vStrip (trimChars stdout.data)
  match specFirstLine? s with
  | none => none
  | some line => some ⟨(splitOnChar ' ' (trimChars line)).getLastD []⟩

/-! ## Helper lemmas about the string models -/

theorem splitOnChar_ne_nil (sep : Char) (l : List Char) : splitOnChar sep l ≠ [] := by
  cases l with
  | nil => simp [splitOnChar]
  | cons c cs =>
    simp only [splitOnChar]
    split
    · simp
    · split <;> simp

theorem splitOnChar_head? (sep : Char) (l : List Char) :
    (splitOnChar sep l).head? = some (l.takeWhile (fun c => c != sep)) := by
  induction l with
  | nil => simp [splitOnChar]
  | cons c cs ih =>
    by_cases h : c = sep
    · subst h
      simp [splitOnChar, List.takeWhile_cons]
    · have hb : (c == sep) = false := beq_false_of_ne h
      simp only [splitOnChar, hb, Bool.false_eq_true, if_false]
      cases hs : splitOnChar sep cs with
      | nil => exact absurd hs (splitOnChar_ne_nil sep cs)
      | cons t ts =>
        rw [hs] at ih
        simp only [List.head?_cons, Option.some.injEq] at ih
        simp [List.takeWhile_cons, hb, ih, h]

theorem splitOnChar_two_le_iff (sep : Char) (l : List Char) :
    2 ≤ (splitOnChar sep l).length ↔ sep ∈ l := by
  induction l with
  | nil => simp [splitOnChar]
  | cons c cs ih =>
    by_cases h : c = sep
    · have hb : (c == sep) = true := beq_iff_eq.mpr h
      have hpos := List.length_pos.mpr (splitOnChar_ne_nil sep cs)
      constructor
      · intro _
        exact List.mem_cons.mpr (Or.inl h.symm)
      · intro _
        simp only [splitOnChar, hb, if_true, List.length_cons]
        omega
    · have hb : (c == sep) = false := beq_false_of_ne h
      simp only [splitOnChar, hb, Bool.false_eq_true, if_false]
      cases hs : splitOnChar sep cs with
      | nil => exact absurd hs (splitOnChar_ne_nil sep cs)
      | cons t ts =>
        rw [hs] at ih
        simp only [List.length_cons] at ih ⊢
        simp only [List.mem_cons]
        constructor
        · intro hl
          exact Or.inr (ih.mp hl)
        · intro hl
          cases hl with
          | inl he => exact absurd he.symm h
          | inr hm => exact ih.mpr hm

theorem takeWhile_append_last_false {α : Type} (p : α → Bool) (a : α) (ha : p a = false)
    (xs : List α) : (xs ++ [a]).takeWhile p = xs.takeWhile p := by
  induction xs with
  | nil => simp [List.takeWhile_cons, ha]
  | cons x xs ih =>
    by_cases h : p x
    · simp [List.takeWhile_cons, h, ih]
    · simp [List.takeWhile_cons, h]

theorem takeWhile_append_stops {α : Type} (p : α → Bool) (xs ys : List α)
    (h : ∃ x ∈ xs, p x = false) : (xs ++ ys).takeWhile p = xs.takeWhile p := by
  induction xs with
  | nil =>
    obtain ⟨x, hx, _⟩ := h
    exact absurd hx (List.not_mem_nil x)
  | cons x xs ih =>
    by_cases hx : p x
    · obtain ⟨y, hy, hpy⟩ := h
      cases List.mem_cons.mp hy with
      | inl he =>
        rw [he] at hpy
        simp [hx] at hpy
      | inr hm => simp [List.takeWhile_cons, hx, ih ⟨y, hm, hpy⟩]
    · simp [List.takeWhile_cons, hx]

theorem rsplitFirst_eq_getLastD (sep : Char) (l : List Char) :
    rsplitFirst sep l = (splitOnChar sep l).getLastD [] := by
  induction l with
  | nil => simp [rsplitFirst, splitOnChar]
  | cons c cs ih =>
    by_cases h : c = sep
    · have hb : (c == sep) = true := beq_iff_eq.mpr h
      have hp : (fun d => d != sep) c = false := by simp [h]
      simp only [splitOnChar, hb, if_true, List.getLastD_cons]
      rw [← ih]
      simp only [rsplitFirst, List.reverse_cons]
      rw [takeWhile_append_last_false (fun d => d != sep) c hp]
    · have hb : (c == sep) = false := beq_false_of_ne h
      simp only [splitOnChar, hb, Bool.false_eq_true, if_false]
      cases hs : splitOnChar sep cs with
      | nil => exact absurd hs (splitOnChar_ne_nil sep cs)
      | cons t ts =>
        cases ts with
        | nil =>
          have hhead := splitOnChar_head? sep cs
          rw [hs] at hhead
          simp only [List.head?_cons, Option.some.injEq] at hhead
          have hnm : ¬ sep ∈ cs := by
            intro hm
            have h2 := (splitOnChar_two_le_iff sep cs).mpr hm
            rw [hs] at h2
            simp at h2
          have hall : ∀ x ∈ cs, (fun d => d != sep) x = true := by
            intro x hx
            have hne : x ≠ sep := fun he => hnm (he ▸ hx)
            simpa using hne
          have htw : cs.takeWhile (fun d => d != sep) = cs :=
            List.takeWhile_eq_self_iff.mpr hall
          have ht : t = cs := by rw [hhead, htw]
          rw [ht]
          have hall2 : ∀ x ∈ cs.reverse ++ [c], (fun d => d != sep) x = true := by
            intro x hx
            cases List.mem_append.mp hx with
            | inl hm => exact hall x (List.mem_reverse.mp hm)
            | inr hm =>
              have hxc : x = c := by simpa using hm
              subst hxc
              simpa using h
          simp only [rsplitFirst, List.reverse_cons, List.getLastD_cons, List.getLastD_nil]
          rw [List.takeWhile_eq_self_iff.mpr hall2]
          simp
        | cons t2 ts2 =>
          have hmem : sep ∈ cs := by
            apply (splitOnChar_two_le_iff sep cs).mp
            rw [hs]
            simp only [List.length_cons]
            omega
          have hstop : ∃ x ∈ cs.reverse, (fun d => d != sep) x = false :=
            ⟨sep, List.mem_reverse.mpr hmem, by simp⟩
          have lhs_eq : rsplitFirst sep (c :: cs) = rsplitFirst sep cs := by
            simp only [rsplitFirst, List.reverse_cons]
            rw [takeWhile_append_stops _ _ _ hstop]
          rw [lhs_eq, ih, hs]
          simp [List.getLastD_cons]

theorem specFirstLine_eq_firstLine (l : List Char) :
    specFirstLine? l = firstLine? l := by
  cases l with
  | nil => decide
  | cons c cs =>
    have hhead := splitOnChar_head? '\n' (c :: cs)
    by_cases h : '\n' ∈ (c :: cs)
    · have h2 : 2 ≤ (splitOnChar '\n' (c :: cs)).length :=
        (splitOnChar_two_le_iff _ _).mpr h
      cases hs : splitOnChar '\n' (c :: cs) with
      | nil => exact absurd hs (splitOnChar_ne_nil _ _)
      | cons x S =>
        cases S with
        | nil =>
          rw [hs] at h2
          simp at h2
        | cons y S2 =>
          rw [hs] at hhead
          simp only [List.head?_cons, Option.some.injEq] at hhead
          simp [specFirstLine?, hs, firstLine?, h, hhead]
    · cases hs : splitOnChar '\n' (c :: cs) with
      | nil => exact absurd hs (splitOnChar_ne_nil _ _)
      | cons x S =>
        cases S with
        | cons y S2 =>
          have h2 : 2 ≤ (splitOnChar '\n' (c :: cs)).length := by
            rw [hs]
            simp only [List.length_cons]
            omega
          exact absurd ((splitOnChar_two_le_iff _ _).mp h2) h
        | nil =>
          rw [hs] at hhead
          simp only [List.head?_cons, Option.some.injEq] at hhead
          simp [specFirstLine?, hs, firstLine?, h, hhead]

/-- The directory loop is the extension filter: an entry is kept exactly
when its file extension equals the dot-stripped configured extension. -/
theorem directory_genome_files_eq_filter (dir : String) (e2 : List Char)
    (entries : List String) :
    directory_genome_files dir e2 entries
      = (entries.filter (fun n => fileExtension n.data == some e2)).map
          (fun n => dir ++ "/" ++ n) := by
  induction entries with
  | nil => rfl
  | cons n rest ih =>
    simp only [directory_genome_files]
    cases hfe : fileExtension n.data with
    | none => simp [List.filter_cons, hfe, ih]
    | some e =>
      cases he : e == e2 with
      | false => simp [List.filter_cons, hfe, he, ih]
      | true => simp [List.filter_cons, hfe, he, ih]

/-! ## The claims -/

/-- Claim C9: For every `ExplicitFiles` specification (`--genome-fasta-files`
present), `parse_list_of_genome_fasta_files` returns exactly the input
sequence of paths unchanged — same elements, same order, duplicates kept,
no filtering, no existence check (no filesystem access at all): the
identity function on path lists, whatever the other options hold. -/
theorem C9_explicit_files_identity (fs : Filesystem) (files : List String)
    (dirOpt : Option String) (ext : String) (listOpt : Option String) (b : Bool) :
    parse_list_of_genome_fasta_files fs ⟨some files, dirOpt, ext, listOpt⟩ b
      = .ok files := rfl

/-- Claim C10: When several genome-specification options are supplied at
once, `parse_list_of_genome_fasta_files` does not fail: the cases are
tried in the fixed order explicit-files, then directory, then list-file,
every lower-precedence option present is ignored, and the result equals
the result of the highest-precedence option alone. -/
theorem C10_precedence_order :
    (∀ (fs : Filesystem) (files : List String) (d : Option String) (ext : String)
       (lst : Option String) (b : Bool),
       parse_list_of_genome_fasta_files fs ⟨some files, d, ext, lst⟩ b
         = parse_list_of_genome_fasta_files fs ⟨some files, none, ext, none⟩ b)
    ∧ (∀ (fs : Filesystem) (d : String) (ext : String) (lst : Option String) (b : Bool),
       parse_list_of_genome_fasta_files fs ⟨none, some d, ext, lst⟩ b
         = parse_list_of_genome_fasta_files fs ⟨none, some d, ext, none⟩ b)
    ∧ (∀ (fs : Filesystem) (files : List String) (d : Option String) (ext : String)
       (lst : Option String) (b : Bool),
       parse_list_of_genome_fasta_files fs ⟨some files, d, ext, lst⟩ b = .ok files) :=
  ⟨fun _ _ _ _ _ _ => rfl, fun _ _ _ _ _ => rfl, fun _ _ _ _ _ _ => rfl⟩

/-- Claim C7: A directory scan matching zero entries yields
`Err(EmptyGenomeDirectory)` (the source's `"Found 0 genomes…"` error)
when `fail_on_no_genomes` is true, and `Ok []` when it is false. -/
theorem C7_empty_directory_scan (dir : String) (entries : List String) (ext : String)
    (h : directory_genome_files dir (stripLeadingDot ext.data) entries = []) :
    genome_files_from_directory dir entries ext true
      = .error (.err "Found 0 genomes from the genome-fasta-directory, cannot continue.")
    ∧ genome_files_from_directory dir entries ext false = .ok [] := by
  constructor
  · simp [genome_files_from_directory, h]
  · simp [genome_files_from_directory, h]

theorem C7_empty_directory_scan_witness :
    directory_genome_files "d" (stripLeadingDot "fna".data) ["notes.txt", "README"] = []
    ∧ (genome_files_from_directory "d" ["notes.txt", "README"] "fna" true
        = .error (.err "Found 0 genomes from the genome-fasta-directory, cannot continue.")
      ∧ genome_files_from_directory "d" ["notes.txt", "README"] "fna" false = .ok []) :=
  ⟨by decide, C7_empty_directory_scan "d" ["notes.txt", "README"] "fna" (by decide)⟩

/-- Claim C2: The directory case returns exactly the direct entries of the
directory whose filename extension equals the configured extension after
a single leading dot is stripped from it (case-sensitive equality);
entries with no extension or any other extension are excluded; and the
configured extensions `"fna"` and `".fna"` give identical results. -/
theorem C2_directory_extension_filter :
    (∀ (dir : String) (entries : List String) (ext : String) (b : Bool) (l : List String),
       genome_files_from_directory dir entries ext b = .ok l →
       l = (entries.filter
              (fun n => fileExtension n.data == some (stripLeadingDot ext.data))).map
            (fun n => dir ++ "/" ++ n))
    ∧ (∀ (dir : String) (entries : List String) (b : Bool),
       genome_files_from_directory dir entries "fna" b
         = genome_files_from_directory dir entries ".fna" b) := by
  constructor
  · intro dir entries ext b l hok
    rw [← directory_genome_files_eq_filter]
    simp only [genome_files_from_directory] at hok
    by_cases hz : (directory_genome_files dir (stripLeadingDot ext.data) entries).length = 0
    · have hnil := List.eq_nil_of_length_eq_zero hz
      cases b
      · simp [hz, hnil] at hok
        simp [hnil, ← hok]
      · simp [hz, hnil] at hok
    · simp [hz] at hok
      exact hok.symm
  · intro dir entries b
    have : stripLeadingDot ".fna".data = stripLeadingDot "fna".data := by decide
    simp [genome_files_from_directory, this]

theorem C2_directory_extension_filter_witness :
    genome_files_from_directory "d" ["a.fna", "b.txt", "c", ".fna", "e.fna"] "fna" true
      = .ok ["d/a.fna", "d/e.fna"]
    ∧ ["d/a.fna", "d/e.fna"]
      = ((["a.fna", "b.txt", "c", ".fna", "e.fna"].filter
           (fun n => fileExtension n.data == some (stripLeadingDot "fna".data))).map
          (fun n => "d" ++ "/" ++ n)) :=
  ⟨by decide,
   C2_directory_extension_filter.1 "d" ["a.fna", "b.txt", "c", ".fna", "e.fna"] "fna" true
     ["d/a.fna", "d/e.fna"] (by decide)⟩

/-- When every line reads successfully, the list-file loop returns the
trimmed lines, in order, blank lines included. -/
theorem read_genome_list_lines_ok (path : String) (i : Nat) (lines : List String) :
    read_genome_list_lines path i (lines.map .ok) = .ok (lines.map rustTrim) := by
  induction lines generalizing i with
  | nil => rfl
  | cons l rest ih =>
    simp only [List.map_cons, read_genome_list_lines, ih, Except.map]

/-- The list-file loop aborts at the first failing line, with its 1-based
line number (counted from the starting index), returning nothing. -/
theorem read_genome_list_lines_first_error (path e : String)
    (rest : List (Except String String)) (pre : List String) (i : Nat) :
    read_genome_list_lines path i (pre.map .ok ++ .error e :: rest)
      = .error (.abort ("Error when reading genome fasta list file " ++ path ++
          " on line " ++ toString (i + pre.length + 1))) := by
  induction pre generalizing i with
  | nil => simp [read_genome_list_lines]
  | cons l ls ih =>
    have harith : i + 1 + ls.length + 1 = i + (ls.length + 1) + 1 := by omega
    simp only [List.map_cons, List.cons_append, read_genome_list_lines, List.append_eq,
      List.length_cons]
    rw [ih (i + 1), harith]
    rfl

/-- Claim C8: For every readable list-file, the list-file case returns one
entry per line in line order, each entry the line trimmed of leading and
trailing whitespace, blank lines retained as empty-string entries; the
lines `["a.fna", "  b.fna  ", ""]` resolve to `["a.fna", "b.fna", ""]`. -/
theorem C8_list_file_trimmed_lines :
    (∀ (path : String) (lines : List String) (readDir : String → Option (List String))
       (ext : String) (b : Bool),
       parse_list_of_genome_fasta_files ⟨readDir, fun _ => some (lines.map .ok)⟩
         ⟨none, none, ext, some path⟩ b = .ok (lines.map rustTrim))
    ∧ read_genome_list_lines "genomes.txt" 0 [.ok "a.fna", .ok "  b.fna  ", .ok ""]
        = .ok ["a.fna", "b.fna", ""] := by
  constructor
  · intro path lines readDir ext b
    exact read_genome_list_lines_ok path 0 lines
  · decide

/-- A result that is a returned `Err(String)` — a typed error handed back
to the caller, as opposed to success or a process abort. -/
def isReturnedErr : Except RunError (List String) → Bool
  | .error (.err _) => true
  | _ => false

set_option maxRecDepth 10000 in
/-- Claim C5 counterexample: a list-file whose second line fails to read
makes the resolver abort (an `.expect` panic), not return a typed error,
so the claim's "typed ListFileUnreadable error" is false as stated. -/
theorem C5_counterexample :
    parse_list_of_genome_fasta_files
        ⟨fun _ => none, fun _ => some [.ok "a.fna", .error "disk I/O error"]⟩
        ⟨none, none, "fna", some "genomes.txt"⟩ true
      = .error (.abort "Error when reading genome fasta list file genomes.txt on line 2")
    ∧ isReturnedErr (parse_list_of_genome_fasta_files
        ⟨fun _ => none, fun _ => some [.ok "a.fna", .error "disk I/O error"]⟩
        ⟨none, none, "fna", some "genomes.txt"⟩ true) = false :=
  ⟨by decide, by decide⟩

/-- Claim C5 (amended): an unopenable list-file, or a read error on some
line, never yields a partial list — but the failure is a process abort
(`.expect` panic), not a returned typed error: the open failure aborts
with a message naming the file (and no line number), and a read failure
aborts with a message naming the file and the 1-based number of the
first failing line. -/
theorem C5_list_file_failures :
    (∀ (path : String) (readDir : String → Option (List String)) (ext : String) (b : Bool),
       parse_list_of_genome_fasta_files ⟨readDir, fun _ => none⟩
         ⟨none, none, ext, some path⟩ b
         = .error (.abort ("Failed to open genome fasta list file " ++ path)))
    ∧ (∀ (path e : String) (rest : List (Except String String)) (pre : List String),
       read_genome_list_lines path 0 (pre.map .ok ++ .error e :: rest)
         = .error (.abort ("Error when reading genome fasta list file " ++ path ++
             " on line " ++ toString (pre.length + 1)))) := by
  constructor
  · intro path readDir ext b
    rfl
  · intro path e rest pre
    have h := read_genome_list_lines_first_error path e rest pre 0
    simpa using h

set_option maxRecDepth 10000 in
/-- Claim C4 counterexample: on a failing presence test the returned error
does not carry the captured stderr — here stderr is `"boom"` and the
returned message does not contain it — so the claim's "carries the
captured stderr content in the error detail" is false as stated. -/
theorem C4_counterexample :
    check_for_external_command_presence "samtools" "which samtools" ⟨false, "", "boom"⟩
      = .error (.err "Cannot continue without samtools. Testing for presence with `which samtools` failed")
    ∧ ¬ List.IsInfix "boom".data
        "Cannot continue without samtools. Testing for presence with `which samtools` failed".data :=
  ⟨rfl, by decide⟩

/-- Claim C4 (amended): `check_for_external_command_presence` returns
`Ok(())` exactly when the testing command's exit status is success,
regardless of stdout content; on non-zero exit it returns an error naming
the executable and the testing command — the captured stderr is only
logged, and the returned error is the same whatever stderr held. -/
theorem C4_presence_check :
    (∀ (exe cmd : String) (proc : ProcessOutput),
       (check_for_external_command_presence exe cmd proc = .ok ()
         ↔ proc.exit_success = true))
    ∧ (∀ (exe cmd stdout stderr : String),
       check_for_external_command_presence exe cmd ⟨false, stdout, stderr⟩
         = .error (.err ("Cannot continue without " ++ exe ++
             ". Testing for presence with `" ++ cmd ++ "` failed"))) := by
  constructor
  · intro exe cmd proc
    cases hp : proc.exit_success
    · simp [check_for_external_command_presence, hp]
    · simp [check_for_external_command_presence, hp]
  · intro exe cmd stdout stderr
    rfl

set_option maxRecDepth 10000 in
/-- Claim C6 counterexample: on a non-zero version-probe exit with
`allow_nonzero_exitstatus = false`, the returned error does not carry the
captured stderr — here stderr is `"boom"` and the returned message does
not contain it — so the claim's "carrying the captured stderr" is false
as stated. -/
theorem C6_counterexample :
    default_version_check "samtools" "1.9" false none ⟨false, "", "boom"⟩
      = .error (.err "Cannot continue without samtools. Finding version of `samtools --version 2>&1` failed")
    ∧ ¬ List.IsInfix "boom".data
        "Cannot continue without samtools. Finding version of `samtools --version 2>&1` failed".data :=
  ⟨rfl, by decide⟩

/-- Claim C6 (amended): a non-zero probe exit with `allow_nonzero_exit`
false fails before any parsing, with an error naming the executable and
the probe command (the captured stderr is only logged, not carried);
with `allow_nonzero_exit` true the exit status is ignored and parsing
proceeds on the captured stdout. -/
theorem C6_version_probe_exit :
    (∀ (exe minv : String) (cmd : Option String) (stdout stderr : String),
       default_version_check exe minv false cmd ⟨false, stdout, stderr⟩
         = .error (.err ("Cannot continue without " ++ exe ++ ". Finding version of `" ++
             version_command_of exe cmd ++ "` failed")))
    ∧ (∀ (exe minv : String) (cmd : Option String) (stdout stderr : String),
       default_version_check exe minv true cmd ⟨false, stdout, stderr⟩
         = default_version_check exe minv true cmd ⟨true, stdout, stderr⟩) := by
  constructor
  · intro exe minv cmd stdout stderr
    rfl
  · intro exe minv cmd stdout stderr
    rfl

/-- Claim C1: For found and minimum version strings that both parse,
`default_version_check` succeeds exactly when the found version is not
strictly below the minimum in the segment-wise numeric order (segments
left to right as numbers, shorter padded with zero segments, non-numeric
suffixes lexicographic only after equal segments — `versionLt`); when the
found version is strictly smaller it returns the "version too old" error
carrying both version strings and the executable name.  In particular
`1.10.0` passes against minimum `1.9.0`, and probe output `v2.0` passes
against minimum `2.0.0`. -/
theorem C1_version_comparison (exe minv : String) (allow : Bool) (cmd : Option String)
    (probe : ProcessOutput) (line : List Char) (fv mv : RVersion)
    (hexit : probe.exit_success = true)
    (hline : firstLine? (normalizedStdout probe.stdout) = some line)
    (hfv : parseVersion (lastSpaceToken line) = some fv)
    (hmv : parseVersion minv.data = some mv) :
    ((default_version_check exe minv allow cmd probe = .ok ()) ↔ versionLt fv mv = false)
    ∧ (versionLt fv mv = true →
       default_version_check exe minv allow cmd probe
         = .error (.err ("It appears the available version of " ++ exe ++
             " is too old (found version " ++ String.mk (lastSpaceToken line) ++
             ", required is " ++ minv ++ ")")))
    ∧ default_version_check "x" "1.9.0" false none ⟨true, "1.10.0", ""⟩ = .ok ()
    ∧ default_version_check "x" "2.0.0" false none ⟨true, "v2.0", ""⟩ = .ok () := by
  have hred : default_version_check exe minv allow cmd probe
      = if versionLt fv mv then
          .error (.err ("It appears the available version of " ++ exe ++
            " is too old (found version " ++ String.mk (lastSpaceToken line) ++
            ", required is " ++ minv ++ ")"))
        else .ok () := by
    simp [default_version_check, hexit, hmv, hline, hfv]
  refine ⟨?_, ?_, by decide, by decide⟩
  · rw [hred]
    cases hv : versionLt fv mv
    · simp
    · simp
  · intro hv
    rw [hred, hv]
    simp

theorem C1_version_comparison_witness :
    (⟨true, "v2.0", ""⟩ : ProcessOutput).exit_success = true
    ∧ firstLine? (normalizedStdout "v2.0") = some ['2', '.', '0']
    ∧ parseVersion (lastSpaceToken ['2', '.', '0']) = some ⟨[2, 0], []⟩
    ∧ parseVersion "2.0.0".data = some ⟨[2, 0, 0], []⟩
    ∧ ((default_version_check "x" "2.0.0" false none ⟨true, "v2.0", ""⟩ = .ok ())
        ↔ versionLt ⟨[2, 0], []⟩ ⟨[2, 0, 0], []⟩ = false) :=
  ⟨rfl, by decide, by decide, by decide,
   (C1_version_comparison "x" "2.0.0" false none ⟨true, "v2.0", ""⟩ ['2', '.', '0']
      ⟨[2, 0], []⟩ ⟨[2, 0, 0], []⟩ rfl (by decide) (by decide) (by decide)).1⟩

/-- Claim C3 counterexample: on probe stdout `"tool version 3.4.1 \nxyz"`
(first line ends in a space) the source extracts `"3.4.1"` — it trims the
first line before splitting — while the claim's extraction (no trimming
of the line) yields the empty token `""`; the claim as stated is false. -/
theorem C3_counterexample :
    extract_version_token "tool version 3.4.1 \nxyz" = some "3.4.1"
    ∧ claimed_token_extraction "tool version 3.4.1 \nxyz" = some "" :=
  ⟨by decide, by decide⟩

/-- Claim C3 (amended): the version token is extracted by trimming the
whole captured stdout, stripping exactly one leading literal `v`, taking
the first line of the possibly multi-line result, trimming that
line, and taking the last single-space-delimited token of it; probe
stdout `"tool version 3.4.1\n"` yields token `"3.4.1"`; lines after the
first influence the token only through the first line of the normalized
output; failure to extract a first line (empty normalized stdout) makes
`default_version_check` abort with a parse message naming the executable
(the last-token extraction itself never fails). -/
theorem C3_token_extraction :
    (∀ stdout : String, extract_version_token stdout = spec_token_extraction stdout)
    ∧ extract_version_token "tool version 3.4.1\n" = some "3.4.1"
    ∧ (∀ s1 s2 : String,
       firstLine? (normalizedStdout s1) = firstLine? (normalizedStdout s2) →
       extract_version_token s1 = extract_version_token s2)
    ∧ (∀ (exe minv : String) (allow : Bool) (cmd : Option String) (stderr : String)
       (mv : RVersion),
       parseVersion minv.data = some mv →
       default_version_check exe minv allow cmd ⟨true, "", stderr⟩
         = .error (.abort ("Unable to parse version for " ++ exe ++ " (error 1)"))) := by
  refine ⟨?_, by decide, ?_, ?_⟩
  · intro stdout
    simp only [extract_version_token, spec_token_extraction, normalizedStdout,
      specFirstLine_eq_firstLine]
    cases hfl : firstLine? (vStrip (trimChars stdout.data)) with
    | none => rfl
    | some line =>
      simp only [lastSpaceToken, rsplitFirst_eq_getLastD]
  · intro s1 s2 hf
    simp only [extract_version_token, hf]
  · intro exe minv allow cmd stderr mv hmv
    have hemp : normalizedStdout "" = [] := by decide
    simp [default_version_check, hmv, hemp, firstLine?]

theorem C3_token_extraction_witness :
    parseVersion "1.0".data = some ⟨[1, 0], []⟩
    ∧ default_version_check "samtools" "1.0" false none ⟨true, "", ""⟩
        = .error (.abort "Unable to parse version for samtools (error 1)") :=
  ⟨by decide,
   C3_token_extraction.2.2.2 "samtools" "1.0" false none "" ⟨[1, 0], []⟩ (by decide)⟩

end BirdToolUtils
